import Mathlib

/-!
Verification development for the `py-calling-agent` execution engine
(`src/py_calling_agent/agent.py`): the message store with its retention
policy, the `ExecutionContext` step state machine, the response-processing
pipelines, the run loop, the streaming event protocol, and the incremental
text segmenter.  Pure Python methods are embedded as Lean functions;
mutating methods become functions from state to state.  The model and
sandbox collaborators are parameters (oracles).
-/

namespace PyCallingAgent

/-- Logical message roles, mirroring the `MessageRole` string enum. -/
inductive MessageRole where
  | SYSTEM
  | USER
  | ASSISTANT
  | CODE_EXECUTION
  | EXECUTION_RESULT
deriving DecidableEq

/-- Transport value of a role, mirroring the `str` value of the enum. -/
def MessageRole.value : MessageRole → String
  | .SYSTEM => "system"
  | .USER => "user"
  | .ASSISTANT => "assistant"
  | .CODE_EXECUTION => "code_execution"
  | .EXECUTION_RESULT => "execution_result"

/-- A conversation message: `Message(content, role)`.  The `SystemMessage`,
`UserMessage`, `AssistantMessage`, `CodeExecutionMessage` and
`ExecutionResultMessage` subclasses only fix the role tag, so the embedding
uses the role field directly. -/
structure Message where
  role : MessageRole
  content : String
deriving DecidableEq

/-- The `role_conversions` dict from `agent.py`:
`{CODE_EXECUTION: ASSISTANT, EXECUTION_RESULT: USER}`. -/
def role_conversions : List (MessageRole × MessageRole) :=
  [(.CODE_EXECUTION, .ASSISTANT), (.EXECUTION_RESULT, .USER)]

/-- Python `dict.get(key, default)` over an association list. -/
def dictGet (d : List (MessageRole × MessageRole)) (r : MessageRole) : MessageRole :=
  match d with
  | [] => r
  | (k, v) :: rest => if k = r then v else dictGet rest r

/-- `ContextState` enumeration. -/
inductive ContextState where
  | INITIALIZED
  | RUNNING
  | COMPLETED
  | MAX_STEPS_REACHED
deriving DecidableEq

/-- `ExecutionContext`: mutable per-run state `{max_steps, total_steps, state}`. -/
structure ExecutionContext where
  max_steps : Nat
  total_steps : Nat
  state : ContextState
deriving DecidableEq

/-- `ExecutionContext.__init__(max_steps)`. -/
def ExecutionContext.init (max_steps : Nat) : ExecutionContext :=
  ⟨max_steps, 0, .INITIALIZED⟩

/-- `ExecutionContext.start()`: reset the step counter and enter RUNNING. -/
def ExecutionContext.start (c : ExecutionContext) : ExecutionContext :=
  { c with total_steps := 0, state := .RUNNING }

/-- `ExecutionContext.next_step()`: returns the updated context together with
the boolean the Python method returns. -/
def ExecutionContext.next_step (c : ExecutionContext) : ExecutionContext × Bool :=
  if c.max_steps ≤ c.total_steps then
    ({ c with state := .MAX_STEPS_REACHED }, false)
  else
    ({ c with total_steps := c.total_steps + 1 }, true)

/-- `ExecutionContext.complete()`. -/
def ExecutionContext.complete (c : ExecutionContext) : ExecutionContext :=
  { c with state := .COMPLETED }

/-- `ExecutionContext.is_running` property. -/
def ExecutionContext.is_running (c : ExecutionContext) : Bool :=
  c.state = .RUNNING

/-- Python slice `l[-k:]` for `k ≥ 0`: for `k = 0` this is `l[0:]`, the whole
list (the `-0 == 0` slice pitfall), and for `k ≥ 1` the last `k` elements. -/
def pySliceLast {α : Type} (k : Nat) (l : List α) : List α :=
  if k = 0 then l else l.drop (l.length - k)

/-- `PyCallingAgent._trim_history` as a pure function on the message list:
if the length exceeds `max_history`, keep index 0, and of the rest keep
`non_system_messages[-(max_history - 1):]` when there are more than
`max_history - 1` of them. -/
def trimList (max_history : Nat) (msgs : List Message) : List Message :=
  if max_history < msgs.length then
    match msgs with
    | [] => []
    | sys :: rest =>
      let k := max_history - 1
      let recent := if k < rest.length then pySliceLast k rest else rest
      sys :: recent
  else msgs

/-- The agent's conversation-history state: `self.messages` and
`self.max_history`. -/
structure AgentState where
  messages : List Message
  max_history : Nat
deriving DecidableEq

/-- `PyCallingAgent.add_message`: append, then trim. -/
def add_message (st : AgentState) (m : Message) : AgentState :=
  { st with messages := trimList st.max_history (st.messages ++ [m]) }

/-- `PyCallingAgent._update_system_message`: replace index 0 in place when it
is a system message, otherwise insert the new system message at index 0. -/
def update_system_message (st : AgentState) (prompt : String) : AgentState :=
  match st.messages with
  | [] => { st with messages := [⟨.SYSTEM, prompt⟩] }
  | m :: rest =>
    if m.role = .SYSTEM then { st with messages := ⟨.SYSTEM, prompt⟩ :: rest }
    else { st with messages := ⟨.SYSTEM, prompt⟩ :: m :: rest }

/-- `PyCallingAgent._prepare_messages`: serialize each message to
`{role: role_conversions.get(role, role).value, content: content}`. -/
def prepare_messages (msgs : List Message) : List (String × String) :=
  msgs.map (fun m => ((dictGet role_conversions m.role).value, m.content))

/-- `ExecutionStatus` of an `AgentResponse`. -/
inductive ExecutionStatus where
  | SUCCESS
  | MAX_STEPS_REACHED
deriving DecidableEq

/-- `AgentResponse` returned by `run`. -/
structure AgentResponse where
  content : String
  status : ExecutionStatus
  steps_taken : Nat
  max_steps : Nat
deriving DecidableEq

/-- Stated from the spec's role-mapping table (for comparison with the
source's `role_conversions` lookup): `CODE_EXECUTION → ASSISTANT`,
`EXECUTION_RESULT → USER`, all others unchanged. -/
def specRoleMap : MessageRole → MessageRole
  | .CODE_EXECUTION => .ASSISTANT
  | .EXECUTION_RESULT => .USER
  | r => r

/-- Whether `m` is a prefix of `s` (character lists). -/
def isPre : List Char → List Char → Bool
  | [], _ => true
  | _ :: _, [] => false
  | a :: m, b :: s2 => a = b && isPre m s2

/-- First occurrence of `marker` in `s`: returns the part before the marker
and the part after it, or `none` when the marker does not occur. -/
def findMarker (marker : List Char) : List Char → Option (List Char × List Char)
  | [] => if isPre marker [] then some ([], []) else none
  | c :: cs =>
    if isPre marker (c :: cs) then some ([], (c :: cs).drop marker.length)
    else
      match findMarker marker cs with
      | some (pre, post) => some (c :: pre, post)
      | none => none

/-- Modelled from the spec: the Response Classifier `extract_python_code`
from `utils.py`, which is not under `src/`.  Per the spec it extracts the
body of the first enclosed language-tagged fenced block and returns `none`
when no such block is present; an empty fenced block yields an empty body. -/
def extract_python_code (response : String) : Option String :=
  match findMarker "```python\n".data response.data with
  | none => none
  | some (_, post) =>
    match findMarker "```".data post with
    | none => none
    | some (body, _) => some (String.mk body)

/-- Python truthiness test `not code_snippet` on an optional string: true for
`None` and for the empty string. -/
def pyFalsy : Option String → Bool
  | none => true
  | some s => s.isEmpty

/-- Modelled from the spec: `NEXT_STEP_PROMPT` from `prompts.py`, which is
not under `src/`.  Per the spec it formats the execution result into a
next-step prompt embedding that result. -/
def NEXT_STEP_PROMPT (execution_result : String) : String :=
  "Execution result:\n" ++ execution_result ++ "\nContinue with the next step."

/-- `PyCallingAgent._process_model_response`: classify the response, and
either complete the run (no code) or execute the extracted code via the
sandbox collaborator, folding the result or error back into history.
Returns the step's string result, the updated context and the updated
history state.  The sandbox is a parameter returning `Except`, standing for
`runtime.execute` which may raise. -/
def process_model_response (sandbox : String → Except String String)
    (model_response : String) (ctx : ExecutionContext) (st : AgentState) :
    String × ExecutionContext × AgentState :=
  let code_snippet := extract_python_code model_response
  if pyFalsy code_snippet then
    (model_response, ctx.complete, add_message st ⟨.ASSISTANT, model_response⟩)
  else
    let st1 := add_message st ⟨.CODE_EXECUTION, model_response⟩
    match sandbox (code_snippet.getD "") with
    | .ok execution_result =>
      (model_response, ctx,
        add_message st1 ⟨.EXECUTION_RESULT, NEXT_STEP_PROMPT execution_result⟩)
    | .error e =>
      ("Execution failed: " ++ e, ctx,
        add_message st1 ⟨.EXECUTION_RESULT,
          "Error: " ++ e ++ "\nPlease fix the code and try again."⟩)

/-- `PyCallingAgent._initialize_conversation`: rewrite/insert the system
message, then append the user query.  The built system prompt is a
parameter (it depends on the runtime and the current time). -/
def initialize_conversation (st : AgentState) (system_prompt query : String) :
    AgentState :=
  add_message (update_system_message st system_prompt) ⟨.USER, query⟩

/-- `PyCallingAgent._execute_step`: call the model collaborator on the
serialized history and process the response.  The model is an oracle from
the serialized message list to a response string. -/
def execute_step (oracle : List (String × String) → String)
    (sandbox : String → Except String String)
    (ctx : ExecutionContext) (st : AgentState) :
    String × ExecutionContext × AgentState :=
  process_model_response sandbox (oracle (prepare_messages st.messages)) ctx st

/-- The `while context.is_running` loop of `PyCallingAgent.run`, with
explicit fuel (the loop performs at most `max_steps + 1` iterations).  The
final execution context and history state are returned alongside the
`AgentResponse` so that theorems can speak about them; `none` models the
implicit `None` return when the loop is never entered, or exhausted fuel. -/
def runAux (oracle : List (String × String) → String)
    (sandbox : String → Except String String) :
    Nat → ExecutionContext → AgentState →
      Option (AgentResponse × ExecutionContext × AgentState)
  | 0, _, _ => none
  | fuel + 1, ctx, st =>
    if ctx.is_running then
      let p := ctx.next_step
      if p.2 then
        let r := execute_step oracle sandbox p.1 st
        if r.2.1.is_running then runAux oracle sandbox fuel r.2.1 r.2.2
        else
          some (⟨r.1, .SUCCESS, r.2.1.total_steps, r.2.1.max_steps⟩, r.2.1, r.2.2)
      else
        some (⟨"", .MAX_STEPS_REACHED, p.1.total_steps, p.1.max_steps⟩, p.1, st)
    else none

/-- `PyCallingAgent.run(query)`: create a fresh context, start it,
initialize the conversation, and drive the loop. -/
def run (oracle : List (String × String) → String)
    (sandbox : String → Except String String) (max_steps : Nat)
    (st0 : AgentState) (system_prompt query : String) :
    Option (AgentResponse × ExecutionContext × AgentState) :=
  runAux oracle sandbox (max_steps + 1) ((ExecutionContext.init max_steps).start)
    (initialize_conversation st0 system_prompt query)

/-- `SegmentType` of the incremental segmenter: plain text or code. -/
inductive SegmentType where
  | TEXT
  | CODE
deriving DecidableEq

/-- A completed `Segment` emitted by the incremental segmenter. -/
structure Segment where
  type : SegmentType
  content : String
deriving DecidableEq

/-- The backtick character, the unit of the code-fence marker token. -/
def backtickChar : Char := Char.ofNat 96

/-- Modelled from the spec: the state of `StreamingTextParser` from
`streaming_text_parser.py`, which is not under `src/`.  Per the spec the
segmenter is OUTSIDE_CODE or INSIDE_CODE (`insideCode`), may hold a
buffered partial marker (`ticks` consecutive backticks, the
ENTERING_CODE/EXITING_CODE states), and buffers the content of the segment
under construction (`buf`). -/
structure ParserState where
  insideCode : Bool
  ticks : Nat
  buf : List Char
deriving DecidableEq

/-- Fresh segmenter state: outside code, nothing buffered. -/
def ParserState.initial : ParserState := ⟨false, 0, []⟩

/-- Segment type for content buffered in the given mode. -/
def segTypeOf (insideCode : Bool) : SegmentType :=
  if insideCode then .CODE else .TEXT

/-- Modelled from the spec: one character of segmenter input.  A third
consecutive backtick completes the marker token: the buffered content is
flushed as a segment of the current mode (when non-empty) and the mode
toggles.  A non-backtick character turns any shorter backtick tally back
into ordinary buffered content, so marker text never appears inside an
emitted segment and no stream data is lost. -/
def stepChar (a : ParserState × List Segment) (c : Char) : ParserState × List Segment :=
  let s := a.1
  if c = backtickChar then
    if 2 ≤ s.ticks then
      let out := if s.buf.isEmpty then a.2
        else a.2 ++ [⟨segTypeOf s.insideCode, String.mk s.buf⟩]
      (⟨!s.insideCode, 0, []⟩, out)
    else (⟨s.insideCode, s.ticks + 1, s.buf⟩, a.2)
  else (⟨s.insideCode, 0, s.buf ++ List.replicate s.ticks backtickChar ++ [c]⟩, a.2)

/-- Modelled from the spec: `StreamingTextParser.process_chunk`: consume one
chunk of arbitrary size, returning the new state and the segments completed
during this call. -/
def process_chunk (s : ParserState) (chunk : String) : ParserState × List Segment :=
  chunk.data.foldl stepChar (s, [])

/-- Modelled from the spec: end-of-stream flush: whatever is buffered
(including a trailing partial marker, which never became a marker) is
emitted as a segment of the current mode rather than dropped. -/
def finalize (s : ParserState) : List Segment :=
  let content := s.buf ++ List.replicate s.ticks backtickChar
  if content.isEmpty then [] else [⟨segTypeOf s.insideCode, String.mk content⟩]

/-- Feed a list of chunks in order through one segmenter, accumulating the
emitted segments. -/
def feedAll (chunks : List String) : ParserState × List Segment :=
  chunks.foldl (fun a ch =>
    let p := process_chunk a.1 ch
    (p.1, a.2 ++ p.2)) (ParserState.initial, [])

/-- All segments produced by feeding `chunks` and then flushing at
end-of-stream. -/
def parseChunks (chunks : List String) : List Segment :=
  (feedAll chunks).2 ++ finalize (feedAll chunks).1

/-- `EventType` of the streaming event protocol. -/
inductive EventType where
  | TEXT
  | CODE
  | EXECUTION_RESULT
  | EXECUTION_ERROR
  | FINAL_RESPONSE
  | MAX_STEPS_REACHED
deriving DecidableEq

/-- An `Event` surfaced by `stream_events`. -/
structure Event where
  type : EventType
  content : String
deriving DecidableEq

/-- Event type of a completed segment, as yielded by
`_stream_step_execution`: TEXT segments become TEXT events, CODE segments
CODE events. -/
def segEventType : SegmentType → EventType
  | .TEXT => .TEXT
  | .CODE => .CODE

/-- Events yielded while streaming one model response: each chunk is fed to
a fresh-per-step segmenter and every completed segment is surfaced.  (The
source never flushes this parser; only completed segments are yielded.) -/
def segEvents (chunks : List String) : List Event :=
  ((feedAll chunks).2).map (fun seg => ⟨segEventType seg.type, seg.content⟩)

/-- `PyCallingAgent._process_model_response_streaming`: same classify /
execute / store logic as the non-streaming path, but the outcome is an
event (FINAL_RESPONSE, EXECUTION_RESULT or EXECUTION_ERROR) instead of a
returned string. -/
def process_model_response_streaming (sandbox : String → Except String String)
    (model_response : String) (ctx : ExecutionContext) (st : AgentState) :
    List Event × ExecutionContext × AgentState :=
  let code_snippet := extract_python_code model_response
  if pyFalsy code_snippet then
    ([⟨.FINAL_RESPONSE, model_response⟩], ctx.complete,
      add_message st ⟨.ASSISTANT, model_response⟩)
  else
    let st1 := add_message st ⟨.CODE_EXECUTION, model_response⟩
    match sandbox (code_snippet.getD "") with
    | .ok execution_result =>
      ([⟨.EXECUTION_RESULT, execution_result⟩], ctx,
        add_message st1 ⟨.EXECUTION_RESULT, NEXT_STEP_PROMPT execution_result⟩)
    | .error e =>
      ([⟨.EXECUTION_ERROR, e⟩], ctx,
        add_message st1 ⟨.EXECUTION_RESULT,
          "Error: " ++ e ++ "\nPlease fix the code and try again."⟩)

/-- The `while context.is_running` loop of `PyCallingAgent.stream_events`,
with explicit fuel: on budget failure a single MAX_STEPS_REACHED event ends
the sequence; otherwise the step's segment events and outcome event are
emitted, and the loop continues only while the context is still running
(the generator returns right after the event that ended the run).  The
model collaborator's `stream` is an oracle from the serialized history to
the list of chunks; `"".join(chunks)` is `String.join`. -/
def streamAux (oracleChunks : List (String × String) → List String)
    (sandbox : String → Except String String) :
    Nat → ExecutionContext → AgentState → List Event
  | 0, _, _ => []
  | fuel + 1, ctx, st =>
    if ctx.is_running then
      let p := ctx.next_step
      if p.2 then
        let chunks := oracleChunks (prepare_messages st.messages)
        let r := process_model_response_streaming sandbox (String.join chunks) p.1 st
        segEvents chunks ++ r.1 ++
          (if r.2.1.is_running then streamAux oracleChunks sandbox fuel r.2.1 r.2.2
           else [])
      else [⟨.MAX_STEPS_REACHED, "Max steps reached"⟩]
    else []

/-- `PyCallingAgent.stream_events(query)`: the whole event sequence of a
streaming run. -/
def stream_events (oracleChunks : List (String × String) → List String)
    (sandbox : String → Except String String) (max_steps : Nat)
    (st0 : AgentState) (system_prompt query : String) : List Event :=
  streamAux oracleChunks sandbox (max_steps + 1)
    ((ExecutionContext.init max_steps).start)
    (initialize_conversation st0 system_prompt query)

/-- Whether an event is one of the two terminal event kinds. -/
def isTerminalEvent (e : Event) : Bool :=
  match e.type with
  | .FINAL_RESPONSE => true
  | .MAX_STEPS_REACHED => true
  | _ => false

/-- A heap of Python list objects, for stating aliasing/frame properties:
each cell is one list-of-messages object, addressed by its index. -/
structure Heap where
  cells : List (List Message)

/-- Dereference a list object. -/
def readRef (h : Heap) (r : Nat) : List Message :=
  h.cells.getD r []

/-- Mutate a list object in place. -/
def writeRef (h : Heap) (r : Nat) (v : List Message) : Heap :=
  ⟨h.cells.set r v⟩

/-- Allocate a fresh list object. -/
def alloc (h : Heap) (v : List Message) : Heap × Nat :=
  (⟨h.cells ++ [v]⟩, h.cells.length)

/-- An agent's identity for the aliasing model: the reference to the list
object held in `self.messages`, plus `max_history`. -/
structure AgentRef where
  msgsRef : Nat
  max_history : Nat

/-- `PyCallingAgent.__init__`'s history handling:
`self.messages = messages.copy()` allocates a fresh list object holding a
copy of the caller-supplied list's current contents (`messagesArg` is the
caller's object, e.g. the shared mutable default `[]`). -/
def agent_init (h : Heap) (messagesArg : Nat) (max_history : Nat) :
    Heap × AgentRef :=
  let p := alloc h (readRef h messagesArg)
  (p.1, ⟨p.2, max_history⟩)

/-- The history-mutating agent operations: `add_message` (which appends and
trims) and `_update_system_message` (which rewrites/inserts index 0).  Both
mutate only the agent's own list object. -/
inductive AgentOp where
  | addMsg (m : Message)
  | updateSystem (prompt : String)

/-- Run one agent operation against the heap. -/
def applyOp (h : Heap) (a : AgentRef) : AgentOp → Heap
  | .addMsg m =>
    writeRef h a.msgsRef
      ((add_message ⟨readRef h a.msgsRef, a.max_history⟩ m).messages)
  | .updateSystem prompt =>
    writeRef h a.msgsRef
      ((update_system_message ⟨readRef h a.msgsRef, a.max_history⟩ prompt).messages)

/-- Run a sequence of agent operations against the heap. -/
def applyOps (h : Heap) (a : AgentRef) (ops : List AgentOp) : Heap :=
  ops.foldl (fun hh op => applyOp hh a op) h

end PyCallingAgent

namespace PyCallingAgent

/-- C4: the `ExecutionContext` state machine: `start()` moves INITIALIZED to
RUNNING resetting `total_steps` to 0; `next_step()` in RUNNING below the
budget increments the counter, stays RUNNING and returns true; `next_step()`
in RUNNING at the budget moves to MAX_STEPS_REACHED without incrementing and
returns false; `complete()` in RUNNING moves to COMPLETED; `is_running` holds
exactly in state RUNNING. -/
theorem executionContext_state_machine (c : ExecutionContext) :
    (c.state = .INITIALIZED →
      (c.start).state = .RUNNING ∧ (c.start).total_steps = 0) ∧
    (c.state = .RUNNING → c.total_steps < c.max_steps →
      c.next_step = ({ c with total_steps := c.total_steps + 1 }, true) ∧
      (c.next_step).1.state = .RUNNING) ∧
    (c.state = .RUNNING → c.total_steps = c.max_steps →
      c.next_step = ({ c with state := .MAX_STEPS_REACHED }, false) ∧
      (c.next_step).1.total_steps = c.total_steps) ∧
    (c.state = .RUNNING → (c.complete).state = .COMPLETED) ∧
    (c.is_running = true ↔ c.state = .RUNNING) := by
  refine ⟨fun _ => ⟨rfl, rfl⟩, fun hr hlt => ?_, fun hr heq => ?_, fun _ => rfl, ?_⟩
  · have hnot : ¬ c.max_steps ≤ c.total_steps := by omega
    constructor
    · simp [ExecutionContext.next_step, hnot]
    · simp [ExecutionContext.next_step, hnot, hr]
  · have hle : c.max_steps ≤ c.total_steps := by omega
    constructor
    · simp [ExecutionContext.next_step, hle]
    · simp [ExecutionContext.next_step, hle]
  · simp [ExecutionContext.is_running]

/-- Witness for C4: the transitions at concrete contexts. -/
theorem executionContext_state_machine_witness :
    ((ExecutionContext.start ⟨5, 3, .INITIALIZED⟩).state = .RUNNING ∧
     (ExecutionContext.start ⟨5, 3, .INITIALIZED⟩).total_steps = 0) ∧
    (ExecutionContext.next_step ⟨5, 2, .RUNNING⟩
        = (⟨5, 3, .RUNNING⟩, true)) ∧
    (ExecutionContext.next_step ⟨5, 5, .RUNNING⟩
        = (⟨5, 5, .MAX_STEPS_REACHED⟩, false)) ∧
    (ExecutionContext.complete ⟨5, 2, .RUNNING⟩).state = .COMPLETED := by
  refine ⟨(executionContext_state_machine ⟨5, 3, .INITIALIZED⟩).1 rfl, ?_, ?_,
    (executionContext_state_machine ⟨5, 2, .RUNNING⟩).2.2.2.1 rfl⟩
  · exact ((executionContext_state_machine ⟨5, 2, .RUNNING⟩).2.1 rfl (by decide)).1
  · exact ((executionContext_state_machine ⟨5, 5, .RUNNING⟩).2.2.1 rfl rfl).1

theorem dictGet_role_conversions (r : MessageRole) :
    dictGet role_conversions r = specRoleMap r := by
  cases r <;> rfl

/-- C5: serialization preserves every content string exactly and remaps only
the role, per the fixed table `CODE_EXECUTION → ASSISTANT`,
`EXECUTION_RESULT → USER`, all others unchanged; the stored messages
themselves are untouched (serialization is a pure read). -/
theorem prepare_messages_role_mapping (msgs : List Message) (i : Nat) :
    (prepare_messages msgs).length = msgs.length ∧
    (prepare_messages msgs)[i]? =
      msgs[i]?.map (fun m => ((specRoleMap m.role).value, m.content)) := by
  constructor
  · simp [prepare_messages]
  · simp only [prepare_messages, List.getElem?_map]
    cases msgs[i]? with
    | none => rfl
    | some m => simp [dictGet_role_conversions]

/-- C3 (bug evidence): with `max_history = 1`, appending a user message to a
history holding only the system message leaves a list of length 2: the trim
step computes the Python slice `non_system_messages[-0:]`, which keeps every
non-system message, so the stored history exceeds `max_history`. -/
theorem add_message_max_history_one_overflows :
    (add_message ⟨[⟨.SYSTEM, "s"⟩], 1⟩ ⟨.USER, "u"⟩).messages
      = [⟨.SYSTEM, "s"⟩, ⟨.USER, "u"⟩] ∧
    1 < (add_message ⟨[⟨.SYSTEM, "s"⟩], 1⟩ ⟨.USER, "u"⟩).messages.length := by
  constructor
  · rfl
  · decide

theorem getLast?_drop_of_lt {α : Type} (l : List α) (n : Nat) (h : n < l.length) :
    (l.drop n).getLast? = l.getLast? := by
  induction l generalizing n with
  | nil => simp at h
  | cons a t ih =>
    cases n with
    | zero => rfl
    | succ m =>
      have hm : m < t.length := by simpa using h
      have ht : t ≠ [] := by
        cases t with
        | nil => simp at hm
        | cons b t2 => simp
      rw [List.drop_succ_cons, ih m hm]
      cases t with
      | nil => simp at hm
      | cons b t2 => rfl

theorem getLast?_cons_of_ne_nil {α : Type} (a : α) (l : List α) (h : l ≠ []) :
    (a :: l).getLast? = l.getLast? := by
  cases l with
  | nil => exact absurd rfl h
  | cons b t => rfl

theorem trimList_getLast? (N : Nat) (msgs : List Message) :
    (trimList N msgs).getLast? = msgs.getLast? := by
  unfold trimList
  by_cases h : N < msgs.length
  · simp only [h, if_true]
    cases msgs with
    | nil => rfl
    | cons sys rest =>
      by_cases hk : N - 1 < rest.length
      · simp only [hk, if_true]
        by_cases hz : N - 1 = 0
        · simp [pySliceLast, hz]
        · have hrest : rest ≠ [] := by
            cases rest with
            | nil => simp at hk
            | cons b t => simp
          have hlt : rest.length - (N - 1) < rest.length := by omega
          have hdlen : (rest.drop (rest.length - (N - 1))).length = N - 1 := by
            rw [List.length_drop]; omega
          have hdne : rest.drop (rest.length - (N - 1)) ≠ [] := by
            intro hnil
            rw [hnil] at hdlen
            simp at hdlen
            omega
          rw [show (pySliceLast (N - 1) rest) =
              rest.drop (rest.length - (N - 1)) by simp [pySliceLast, hz]]
          rw [getLast?_cons_of_ne_nil _ _ hdne, getLast?_cons_of_ne_nil _ _ hrest,
            getLast?_drop_of_lt rest _ hlt]
      · simp [hk]
  · simp [h]

theorem add_message_getLast? (st : AgentState) (m : Message) :
    (add_message st m).messages.getLast? = some m := by
  unfold add_message
  rw [trimList_getLast?]
  simp

/-- C2: when the extracted code is non-empty and the sandbox raises, the
step handler returns normally (no exception propagates: it is a total
function of the sandbox's `Except` result) with a failure-annotated string,
appends an EXECUTION_RESULT message embedding the error text in the
corrective retry prompt, and leaves the execution context unchanged, hence
still RUNNING, so the run loop continues. -/
theorem process_model_response_on_error (sandbox : String → Except String String)
    (resp : String) (ctx : ExecutionContext) (st : AgentState) (e : String)
    (hcode : pyFalsy (extract_python_code resp) = false)
    (herr : sandbox ((extract_python_code resp).getD "") = .error e)
    (hrun : ctx.state = .RUNNING) :
    process_model_response sandbox resp ctx st =
      ("Execution failed: " ++ e, ctx,
        add_message (add_message st ⟨.CODE_EXECUTION, resp⟩)
          ⟨.EXECUTION_RESULT,
            "Error: " ++ e ++ "\nPlease fix the code and try again."⟩) ∧
    (process_model_response sandbox resp ctx st).2.1.is_running = true ∧
    (process_model_response sandbox resp ctx st).2.2.messages.getLast? =
      some ⟨.EXECUTION_RESULT,
        "Error: " ++ e ++ "\nPlease fix the code and try again."⟩ := by
  have heq : process_model_response sandbox resp ctx st =
      ("Execution failed: " ++ e, ctx,
        add_message (add_message st ⟨.CODE_EXECUTION, resp⟩)
          ⟨.EXECUTION_RESULT,
            "Error: " ++ e ++ "\nPlease fix the code and try again."⟩) := by
    unfold process_model_response
    simp only [hcode, Bool.false_eq_true, if_false, herr]
  refine ⟨heq, ?_, ?_⟩
  · rw [heq]
    simp [ExecutionContext.is_running, hrun]
  · rw [heq]
    exact add_message_getLast? _ _

/-- Witness for C2: a concrete code-bearing response and an erroring sandbox. -/
theorem process_model_response_on_error_witness :
    (process_model_response (fun _ => Except.error "boom")
        ("```python" ++ "\nx = 1\n" ++ "```") ⟨5, 1, .RUNNING⟩
        ⟨[⟨.SYSTEM, "s"⟩, ⟨.USER, "u"⟩], 10⟩).2.1.is_running = true ∧
    (process_model_response (fun _ => Except.error "boom")
        ("```python" ++ "\nx = 1\n" ++ "```") ⟨5, 1, .RUNNING⟩
        ⟨[⟨.SYSTEM, "s"⟩, ⟨.USER, "u"⟩], 10⟩).2.2.messages.getLast? =
      some ⟨.EXECUTION_RESULT,
        "Error: " ++ "boom" ++ "\nPlease fix the code and try again."⟩ := by
  have h := process_model_response_on_error (fun _ => Except.error "boom")
    ("```python" ++ "\nx = 1\n" ++ "```") ⟨5, 1, .RUNNING⟩
    ⟨[⟨.SYSTEM, "s"⟩, ⟨.USER, "u"⟩], 10⟩ "boom" (by rfl) (by rfl) rfl
  exact ⟨h.2.1, h.2.2⟩

/-- C8: when the extractor yields no code or an empty code body (Python
falsiness of the snippet), the step handler treats the response as a final
answer: it appends it as an ASSISTANT message, marks the context COMPLETED,
and the result is independent of the sandbox (no sandbox execution). -/
theorem process_model_response_no_code (sandbox : String → Except String String)
    (resp : String) (ctx : ExecutionContext) (st : AgentState)
    (h : pyFalsy (extract_python_code resp) = true) :
    process_model_response sandbox resp ctx st =
      (resp, ctx.complete, add_message st ⟨.ASSISTANT, resp⟩) ∧
    (∀ sandbox2 : String → Except String String,
      process_model_response sandbox2 resp ctx st =
        process_model_response sandbox resp ctx st) ∧
    (process_model_response sandbox resp ctx st).2.1.state = .COMPLETED ∧
    (process_model_response sandbox resp ctx st).2.2.messages.getLast? =
      some ⟨.ASSISTANT, resp⟩ := by
  have heq : ∀ sb : String → Except String String,
      process_model_response sb resp ctx st =
        (resp, ctx.complete, add_message st ⟨.ASSISTANT, resp⟩) := by
    intro sb
    unfold process_model_response
    simp only [h, if_true]
  refine ⟨heq sandbox, fun sb2 => by rw [heq sb2, heq sandbox], ?_, ?_⟩
  · rw [heq sandbox]
    rfl
  · rw [heq sandbox]
    exact add_message_getLast? _ _

/-- Witness for C8: a response holding an empty fenced block is treated as a
final answer. -/
theorem process_model_response_no_code_witness :
    process_model_response (fun _ => Except.ok "r")
        ("```python" ++ "\n" ++ "```") ⟨5, 1, .RUNNING⟩ ⟨[⟨.SYSTEM, "s"⟩], 10⟩ =
      ("```python" ++ "\n" ++ "```", ExecutionContext.complete ⟨5, 1, .RUNNING⟩,
        add_message ⟨[⟨.SYSTEM, "s"⟩], 10⟩
          ⟨.ASSISTANT, "```python" ++ "\n" ++ "```"⟩) ∧
    (process_model_response (fun _ => Except.ok "r")
        ("```python" ++ "\n" ++ "```") ⟨5, 1, .RUNNING⟩
        ⟨[⟨.SYSTEM, "s"⟩], 10⟩).2.1.state = .COMPLETED := by
  have h := process_model_response_no_code (fun _ => Except.ok "r")
    ("```python" ++ "\n" ++ "```") ⟨5, 1, .RUNNING⟩ ⟨[⟨.SYSTEM, "s"⟩], 10⟩ (by rfl)
  exact ⟨h.1, h.2.2.1⟩

theorem process_model_response_falsy_eq (sandbox : String → Except String String)
    (resp : String) (ctx : ExecutionContext) (st : AgentState)
    (h : pyFalsy (extract_python_code resp) = true) :
    process_model_response sandbox resp ctx st =
      (resp, ctx.complete, add_message st ⟨.ASSISTANT, resp⟩) := by
  unfold process_model_response
  simp only [h, if_true]

theorem process_model_response_code_ctx (sandbox : String → Except String String)
    (resp : String) (ctx : ExecutionContext) (st : AgentState)
    (h : pyFalsy (extract_python_code resp) = false) :
    (process_model_response sandbox resp ctx st).2.1 = ctx := by
  unfold process_model_response
  simp only [h, Bool.false_eq_true, if_false]
  cases sandbox ((extract_python_code resp).getD "") <;> rfl

theorem runAux_all_code (oracle : List (String × String) → String)
    (sandbox : String → Except String String)
    (hcode : ∀ ms, pyFalsy (extract_python_code (oracle ms)) = false) :
    ∀ (fuel : Nat) (ctx : ExecutionContext) (st : AgentState),
      ctx.state = .RUNNING → ctx.total_steps ≤ ctx.max_steps →
      ctx.total_steps + fuel = ctx.max_steps + 1 →
      ∃ st2 : AgentState,
        runAux oracle sandbox fuel ctx st =
          some (⟨"", .MAX_STEPS_REACHED, ctx.max_steps, ctx.max_steps⟩,
            ⟨ctx.max_steps, ctx.max_steps, .MAX_STEPS_REACHED⟩, st2) := by
  intro fuel
  induction fuel with
  | zero =>
    intro ctx st _ hle hsum
    omega
  | succ f ih =>
    intro ctx st hstate hle hsum
    have hrun : ctx.is_running = true := by
      simp [ExecutionContext.is_running, hstate]
    by_cases heq : ctx.total_steps = ctx.max_steps
    · have hns : ctx.next_step = ({ ctx with state := .MAX_STEPS_REACHED }, false) := by
        unfold ExecutionContext.next_step
        simp [heq]
      refine ⟨st, ?_⟩
      simp only [runAux, hrun, if_true, hns, Bool.false_eq_true, if_false]
      have hctx : ({ ctx with state := .MAX_STEPS_REACHED } : ExecutionContext) =
          ⟨ctx.max_steps, ctx.max_steps, .MAX_STEPS_REACHED⟩ := by
        cases ctx
        simp_all
      rw [hctx, heq]
    · have hlt : ctx.total_steps < ctx.max_steps := by omega
      have hns : ctx.next_step = ({ ctx with total_steps := ctx.total_steps + 1 }, true) := by
        unfold ExecutionContext.next_step
        have : ¬ ctx.max_steps ≤ ctx.total_steps := by omega
        simp [this]
      have hresp := hcode (prepare_messages st.messages)
      have hctx2 := process_model_response_code_ctx sandbox
        (oracle (prepare_messages st.messages))
        { ctx with total_steps := ctx.total_steps + 1 } st hresp
      have hrun2 : (execute_step oracle sandbox
          { ctx with total_steps := ctx.total_steps + 1 } st).2.1.is_running = true := by
        unfold execute_step
        rw [hctx2]
        simp [ExecutionContext.is_running, hstate]
      obtain ⟨st2, hrec⟩ := ih
        ({ ctx with total_steps := ctx.total_steps + 1 })
        ((execute_step oracle sandbox
          { ctx with total_steps := ctx.total_steps + 1 } st).2.2)
        hstate (by simp; omega) (by simp; omega)
      refine ⟨st2, ?_⟩
      simp only [runAux, hrun, if_true, hns]
      simp only [hrun2, if_true]
      rw [show (execute_step oracle sandbox
          { ctx with total_steps := ctx.total_steps + 1 } st).2.1 =
          { ctx with total_steps := ctx.total_steps + 1 } from hctx2]
      exact hrec

/-- C1: for every step budget `M ≥ 1`, when the model collaborator's
response always contains (non-empty) fenced code, `run` terminates and
returns an `AgentResponse` with status MAX_STEPS_REACHED and
`steps_taken = M`: exactly `M` turns are attempted before the budget gate
fails. -/
theorem run_all_code_max_steps (oracle : List (String × String) → String)
    (sandbox : String → Except String String) (M : Nat) (st0 : AgentState)
    (sp q : String) (hM : 1 ≤ M)
    (hcode : ∀ ms, pyFalsy (extract_python_code (oracle ms)) = false) :
    ∃ st2 : AgentState,
      run oracle sandbox M st0 sp q =
        some (⟨"", .MAX_STEPS_REACHED, M, M⟩, ⟨M, M, .MAX_STEPS_REACHED⟩, st2) := by
  obtain ⟨st2, h⟩ := runAux_all_code oracle sandbox hcode (M + 1)
    ((ExecutionContext.init M).start) (initialize_conversation st0 sp q)
    rfl (by simp [ExecutionContext.init, ExecutionContext.start])
    (by simp [ExecutionContext.init, ExecutionContext.start])
  exact ⟨st2, h⟩

/-- Witness for C1: a model that always answers with a fenced code block,
budget 2. -/
theorem run_all_code_max_steps_witness :
    ∃ st2 : AgentState,
      run (fun _ => "```python" ++ "\nx = 1\n" ++ "```")
          (fun _ => Except.ok "done") 2 ⟨[], 10⟩ "sys" "hi" =
        some (⟨"", .MAX_STEPS_REACHED, 2, 2⟩, ⟨2, 2, .MAX_STEPS_REACHED⟩, st2) :=
  run_all_code_max_steps _ _ 2 ⟨[], 10⟩ "sys" "hi" (by decide) (fun _ => rfl)

/-- C6: a run whose first model response contains no fenced code terminates
after exactly one turn with status SUCCESS, `steps_taken = 1`, content equal
to that response, the response stored as the last message with role
ASSISTANT, and the context COMPLETED. -/
theorem run_first_no_code (oracle : List (String × String) → String)
    (sandbox : String → Except String String) (M : Nat) (st0 : AgentState)
    (sp q : String) (hM : 1 ≤ M)
    (h : pyFalsy (extract_python_code
        (oracle (prepare_messages (initialize_conversation st0 sp q).messages)))
      = true) :
    run oracle sandbox M st0 sp q =
      some (⟨oracle (prepare_messages (initialize_conversation st0 sp q).messages),
          .SUCCESS, 1, M⟩, ⟨M, 1, .COMPLETED⟩,
        add_message (initialize_conversation st0 sp q)
          ⟨.ASSISTANT,
            oracle (prepare_messages (initialize_conversation st0 sp q).messages)⟩) ∧
    (add_message (initialize_conversation st0 sp q)
        ⟨.ASSISTANT,
          oracle (prepare_messages
            (initialize_conversation st0 sp q).messages)⟩).messages.getLast? =
      some ⟨.ASSISTANT,
        oracle (prepare_messages (initialize_conversation st0 sp q).messages)⟩ := by
  refine ⟨?_, add_message_getLast? _ _⟩
  unfold run
  have hfuel : M + 1 = (M - 1) + 1 + 1 := by omega
  rw [hfuel]
  have hrun0 : ((ExecutionContext.init M).start).is_running = true := rfl
  have hns : ((ExecutionContext.init M).start).next_step = (⟨M, 1, .RUNNING⟩, true) := by
    unfold ExecutionContext.next_step ExecutionContext.start ExecutionContext.init
    have : ¬ M ≤ 0 := by omega
    simp [this]
  simp only [runAux, hrun0, if_true, hns]
  have hproc := process_model_response_falsy_eq sandbox
    (oracle (prepare_messages (initialize_conversation st0 sp q).messages))
    ⟨M, 1, .RUNNING⟩ (initialize_conversation st0 sp q) h
  unfold execute_step
  rw [hproc]
  rfl

theorem stepChar_out (s : ParserState) (out : List Segment) (c : Char) :
    stepChar (s, out) c = ((stepChar (s, []) c).1, out ++ (stepChar (s, []) c).2) := by
  unfold stepChar
  by_cases hc : c = backtickChar
  · by_cases ht : 2 ≤ s.ticks
    · by_cases hb : s.buf.isEmpty <;> simp [hc, ht, hb]
    · simp [hc, ht]
  · simp [hc]

theorem foldl_stepChar_out (l : List Char) :
    ∀ (s : ParserState) (out : List Segment),
      l.foldl stepChar (s, out) =
        ((l.foldl stepChar (s, [])).1, out ++ (l.foldl stepChar (s, [])).2) := by
  induction l with
  | nil => intro s out; simp
  | cons c t ih =>
    intro s out
    rw [List.foldl_cons, List.foldl_cons, stepChar_out,
      ih (stepChar (s, []) c).1 (out ++ (stepChar (s, []) c).2),
      ih (stepChar (s, []) c).1 (stepChar (s, []) c).2]
    simp [List.append_assoc]

theorem foldl_chunkStep_eq (chunks : List String) :
    ∀ (s : ParserState) (out : List Segment),
      chunks.foldl (fun a ch =>
          let p := process_chunk a.1 ch
          (p.1, a.2 ++ p.2)) (s, out) =
        ((chunks.map String.data).flatten).foldl stepChar (s, out) := by
  induction chunks with
  | nil => intro s out; simp
  | cons ch t ih =>
    intro s out
    rw [List.foldl_cons, List.map_cons, List.flatten_cons, List.foldl_append]
    show t.foldl _ ((process_chunk s ch).1, out ++ (process_chunk s ch).2) = _
    rw [ih (process_chunk s ch).1 (out ++ (process_chunk s ch).2)]
    unfold process_chunk
    rw [foldl_stepChar_out ch.data s out]

theorem data_string_join (chunks : List String) :
    (String.join chunks).data = (chunks.map String.data).flatten := by
  rw [String.join_eq]

/-- C7: the Incremental Segmenter is chunking-invariant: feeding a total
text split into arbitrary chunks (including splits inside a marker token)
and then flushing yields the same ordered sequence of `(type, content)`
segments as feeding the whole text as a single chunk. -/
theorem parseChunks_join (chunks : List String) :
    parseChunks chunks = parseChunks [String.join chunks] := by
  unfold parseChunks feedAll
  rw [foldl_chunkStep_eq chunks ParserState.initial [],
    foldl_chunkStep_eq [String.join chunks] ParserState.initial []]
  rw [show ([String.join chunks].map String.data).flatten = (String.join chunks).data by simp]
  rw [data_string_join]

theorem all_dropLast_of_all {α : Type} (p : α → Bool) (l : List α)
    (h : l.all p = true) : l.dropLast.all p = true := by
  rw [List.all_eq_true] at h ⊢
  intro x hx
  exact h x (List.dropLast_subset l hx)

theorem all_dropLast_append {α : Type} (p : α → Bool) (l1 l2 : List α)
    (h1 : l1.all p = true) (h2 : l2.dropLast.all p = true) :
    (l1 ++ l2).dropLast.all p = true := by
  by_cases hl : l2 = []
  · subst hl
    simp only [List.append_nil]
    exact all_dropLast_of_all p l1 h1
  · rw [List.dropLast_append_of_ne_nil l1 hl, List.all_append]
    simp [h1, h2]

theorem segEvents_nonterminal (chunks : List String) :
    (segEvents chunks).all (fun e => !isTerminalEvent e) = true := by
  rw [List.all_eq_true]
  intro e he
  rw [segEvents, List.mem_map] at he
  obtain ⟨seg, _, rfl⟩ := he
  obtain ⟨ty, co⟩ := seg
  cases ty <;> rfl

theorem streamAux_terminal_last (oc : List (String × String) → List String)
    (sb : String → Except String String) :
    ∀ (fuel : Nat) (ctx : ExecutionContext) (st : AgentState),
      (streamAux oc sb fuel ctx st).dropLast.all (fun e => !isTerminalEvent e)
        = true := by
  intro fuel
  induction fuel with
  | zero => intro ctx st; rfl
  | succ f ih =>
    intro ctx st
    rw [streamAux]
    by_cases hr : ctx.is_running = true
    · rw [if_pos hr]
      by_cases hp : (ctx.next_step).2 = true
      · rw [if_pos hp]
        by_cases hf : pyFalsy (extract_python_code
            (String.join (oc (prepare_messages st.messages)))) = true
        · have hr1 : process_model_response_streaming sb
              (String.join (oc (prepare_messages st.messages)))
              (ctx.next_step).1 st =
              ([⟨.FINAL_RESPONSE, String.join (oc (prepare_messages st.messages))⟩],
                (ctx.next_step).1.complete,
                add_message st ⟨.ASSISTANT,
                  String.join (oc (prepare_messages st.messages))⟩) := by
            unfold process_model_response_streaming
            simp only [hf, if_true]
          simp only [hr1]
          have hnr : ((ctx.next_step).1.complete).is_running = false := by
            simp [ExecutionContext.complete, ExecutionContext.is_running]
          rw [hnr]
          simp only [Bool.false_eq_true, if_false, List.append_nil, List.append_assoc]
          exact all_dropLast_append _ _ _
            (segEvents_nonterminal (oc (prepare_messages st.messages))) rfl
        · have hf2 : pyFalsy (extract_python_code
              (String.join (oc (prepare_messages st.messages)))) = false := by
            revert hf
            cases pyFalsy (extract_python_code
              (String.join (oc (prepare_messages st.messages)))) <;> simp
          cases hs : sb ((extract_python_code
              (String.join (oc (prepare_messages st.messages)))).getD "") with
          | ok res =>
            have hr1 : process_model_response_streaming sb
                (String.join (oc (prepare_messages st.messages)))
                (ctx.next_step).1 st =
                ([⟨.EXECUTION_RESULT, res⟩], (ctx.next_step).1,
                  add_message
                    (add_message st ⟨.CODE_EXECUTION,
                      String.join (oc (prepare_messages st.messages))⟩)
                    ⟨.EXECUTION_RESULT, NEXT_STEP_PROMPT res⟩) := by
              unfold process_model_response_streaming
              simp only [hf2, Bool.false_eq_true, if_false, hs]
            simp only [hr1]
            simp only [List.append_assoc]
            refine all_dropLast_append _ _ _
              (segEvents_nonterminal (oc (prepare_messages st.messages))) ?_
            refine all_dropLast_append _ _ _ rfl ?_
            by_cases hrun2 : ((ctx.next_step).1).is_running = true
            · rw [if_pos hrun2]
              exact ih _ _
            · rw [if_neg hrun2]
              rfl
          | error e =>
            have hr1 : process_model_response_streaming sb
                (String.join (oc (prepare_messages st.messages)))
                (ctx.next_step).1 st =
                ([⟨.EXECUTION_ERROR, e⟩], (ctx.next_step).1,
                  add_message
                    (add_message st ⟨.CODE_EXECUTION,
                      String.join (oc (prepare_messages st.messages))⟩)
                    ⟨.EXECUTION_RESULT,
                      "Error: " ++ e ++ "\nPlease fix the code and try again."⟩) := by
              unfold process_model_response_streaming
              simp only [hf2, Bool.false_eq_true, if_false, hs]
            simp only [hr1]
            simp only [List.append_assoc]
            refine all_dropLast_append _ _ _
              (segEvents_nonterminal (oc (prepare_messages st.messages))) ?_
            refine all_dropLast_append _ _ _ rfl ?_
            by_cases hrun2 : ((ctx.next_step).1).is_running = true
            · rw [if_pos hrun2]
              exact ih _ _
            · rw [if_neg hrun2]
              rfl
      · rw [if_neg hp]
        rfl
    · rw [if_neg hr]
      rfl

/-- C9: in every streaming run the event sequence never contains an event
after a FINAL_RESPONSE or MAX_STEPS_REACHED event: every event before the
last one is non-terminal, so once a terminal event is yielded the sequence
ends. -/
theorem stream_events_terminal_last (oc : List (String × String) → List String)
    (sb : String → Except String String) (M : Nat) (st0 : AgentState)
    (sp q : String) :
    (stream_events oc sb M st0 sp q).dropLast.all
      (fun e => !isTerminalEvent e) = true :=
  streamAux_terminal_last oc sb (M + 1) _ _

theorem readRef_writeRef_ne (h : Heap) (i r : Nat) (v : List Message)
    (hne : r ≠ i) : readRef (writeRef h i v) r = readRef h r := by
  unfold readRef writeRef
  simp only [List.getD, List.get?_eq_getElem?]
  rw [List.getElem?_set_ne (fun he => hne he.symm)]

theorem readRef_alloc_lt (h : Heap) (v : List Message) (r : Nat)
    (hr : r < h.cells.length) : readRef (alloc h v).1 r = readRef h r := by
  unfold readRef alloc
  simp only [List.getD, List.get?_eq_getElem?]
  rw [List.getElem?_append_left hr]

theorem applyOp_frame (h : Heap) (a : AgentRef) (op : AgentOp) (r : Nat)
    (hne : r ≠ a.msgsRef) : readRef (applyOp h a op) r = readRef h r := by
  cases op <;> exact readRef_writeRef_ne _ _ _ _ hne

theorem applyOps_frame (a : AgentRef) (ops : List AgentOp) :
    ∀ (h : Heap) (r : Nat), r ≠ a.msgsRef →
      readRef (applyOps h a ops) r = readRef h r := by
  induction ops with
  | nil => intro h r _; rfl
  | cons op rest ih =>
    intro h r hne
    show readRef (applyOps (applyOp h a op) a rest) r = readRef h r
    rw [ih (applyOp h a op) r hne, applyOp_frame h a op r hne]

/-- C10: the constructor stores a copy of the caller-supplied message list
(`self.messages = messages.copy()`): no later agent operation (appending,
trimming, or rewriting the system message) mutates the caller's list
object, and two agent instances constructed from the same (e.g. default
empty) list object get distinct history objects, so operations on one never
touch the other's history. -/
theorem agent_init_copies (h : Heap) (r : Nat) (N1 N2 : Nat)
    (ops1 ops2 : List AgentOp) (hr : r < h.cells.length) :
    readRef (applyOps (agent_init h r N1).1 (agent_init h r N1).2 ops1) r
      = readRef h r ∧
    (agent_init h r N1).2.msgsRef ≠ (agent_init (agent_init h r N1).1 r N2).2.msgsRef ∧
    readRef (applyOps (agent_init (agent_init h r N1).1 r N2).1
        (agent_init (agent_init h r N1).1 r N2).2 ops2)
      (agent_init h r N1).2.msgsRef
      = readRef (agent_init (agent_init h r N1).1 r N2).1
          (agent_init h r N1).2.msgsRef ∧
    readRef (applyOps (agent_init (agent_init h r N1).1 r N2).1
        (agent_init h r N1).2 ops1)
      (agent_init (agent_init h r N1).1 r N2).2.msgsRef
      = readRef (agent_init (agent_init h r N1).1 r N2).1
          (agent_init (agent_init h r N1).1 r N2).2.msgsRef := by
  have hlen1 : (agent_init h r N1).2.msgsRef = h.cells.length := rfl
  have hcells1 : (agent_init h r N1).1.cells.length = h.cells.length + 1 := by
    simp [agent_init, alloc]
  have hlen2 : (agent_init (agent_init h r N1).1 r N2).2.msgsRef
      = h.cells.length + 1 := by
    show (agent_init h r N1).1.cells.length = h.cells.length + 1
    exact hcells1
  refine ⟨?_, ?_, ?_, ?_⟩
  · rw [applyOps_frame _ ops1 _ r (by rw [hlen1]; omega)]
    exact readRef_alloc_lt h _ r hr
  · rw [hlen1, hlen2]
    omega
  · exact applyOps_frame _ ops2 _ _ (by rw [hlen1, hlen2]; omega)
  · exact applyOps_frame _ ops1 _ _ (by rw [hlen1, hlen2]; omega)

/-- Witness for C10: a heap with one (empty) caller list and concrete
operation sequences. -/
theorem agent_init_copies_witness :
    readRef (applyOps (agent_init ⟨[[]]⟩ 0 10).1 (agent_init ⟨[[]]⟩ 0 10).2
        [.addMsg ⟨.USER, "u"⟩]) 0 = readRef ⟨[[]]⟩ 0 ∧
    (agent_init ⟨[[]]⟩ 0 10).2.msgsRef
      ≠ (agent_init (agent_init ⟨[[]]⟩ 0 10).1 0 10).2.msgsRef :=
  have h := agent_init_copies ⟨[[]]⟩ 0 10 10 [.addMsg ⟨.USER, "u"⟩]
    [.updateSystem "s"] (by decide)
  ⟨h.1, h.2.1⟩

/-- Witness for C6: a code-free first response with budget 1. -/
theorem run_first_no_code_witness :
    run (fun _ => "hello") (fun _ => Except.ok "r") 1 ⟨[], 10⟩ "sys" "hi" =
      some (⟨"hello", .SUCCESS, 1, 1⟩, ⟨1, 1, .COMPLETED⟩,
        add_message (initialize_conversation ⟨[], 10⟩ "sys" "hi")
          ⟨.ASSISTANT, "hello"⟩) ∧
    (add_message (initialize_conversation ⟨[], 10⟩ "sys" "hi")
        ⟨.ASSISTANT, "hello"⟩).messages.getLast? =
      some ⟨.ASSISTANT, "hello"⟩ :=
  run_first_no_code (fun _ => "hello") (fun _ => Except.ok "r") 1 ⟨[], 10⟩
    "sys" "hi" (by decide) (by rfl)

end PyCallingAgent
